import Mathlib

/-!
Verification of the gip manifest data model, versioned storage and conflict
enrichment engine, shallowly embedded from the Rust sources
(`src/manifest/types.rs`, `src/manifest/storage.rs`, `src/merge.rs`).
Strings are modelled as Lean `String`s; conflicted-file text is modelled as
`List Char` so that Rust's byte-level line handling (`str::lines`, CRLF
stripping, missing final newline) is captured exactly.
-/

namespace Gip

/-! ## Data model (src/manifest/types.rs) -/

/-- Schema version constant `SCHEMA_VERSION_1_0` from types.rs. -/
def SCHEMA_VERSION_1_0 : String := "1.0"

/-- Schema version constant `SCHEMA_VERSION_2_0` from types.rs. -/
def SCHEMA_VERSION_2_0 : String := "2.0"

/-- Schema version constant `SCHEMA_VERSION_CURRENT` from types.rs. -/
def SCHEMA_VERSION_CURRENT : String := SCHEMA_VERSION_2_0

/-- `Anchor` identifies the location of a change (types.rs). -/
structure Anchor where
  file : String
  symbol : String
  hunkId : String
deriving DecidableEq, Repr

/-- `SignatureDelta` captures API surface changes (types.rs). -/
structure SignatureDelta where
  before : String
  after : String
deriving DecidableEq, Repr

/-- `Contract` defines the behavioral contract (types.rs). `inputs` and
`outputs` are `Option`s; the three condition lists default to empty on
deserialization (`#[serde(default)]`). -/
structure Contract where
  inputs : Option (List String)
  outputs : Option String
  preconditions : List String
  postconditions : List String
  errorModel : List String
deriving DecidableEq, Repr

/-- `Compatibility` flags (types.rs), with the deprecated v1.0 fields
`binaryBreaking`, `sourceBreaking`, `dataModelMigration` kept as optional
inputs for migration. -/
structure Compatibility where
  breaking : Bool
  deprecations : Option (List String)
  migrations : Option (List String)
  binaryBreaking : Option Bool
  sourceBreaking : Option Bool
  dataModelMigration : Option Bool
deriving DecidableEq, Repr

/-- `PerfBudget` captures performance expectations (types.rs); the Rust
`i32` fields are modelled as `Int` (serde round-trips them exactly and no
arithmetic is performed on them). -/
structure PerfBudget where
  expectedMaxLatencyMs : Option Int
  cpuDeltaPct : Option Int
deriving DecidableEq, Repr

/-- `GlobalIntent` holds commit-level rationale (types.rs). -/
structure GlobalIntent where
  behaviorClass : List String
  rationale : String
deriving DecidableEq, Repr

/-- `Entry` represents a single symbol/hunk modification (types.rs). -/
structure Entry where
  anchor : Anchor
  changeType : String
  rationale : String
  signatureDelta : Option SignatureDelta
  behaviorClass : List String
  contract : Contract
  sideEffects : List String
  compatibility : Option Compatibility
  testsTouched : Option (List String)
  perfBudget : Option PerfBudget
  securityNotes : Option (List String)
  featureFlags : Option (List String)
  inheritsGlobalIntent : Option Bool
deriving DecidableEq, Repr

/-- `Manifest` is the root entity for one commit (types.rs). -/
structure Manifest where
  schemaVersion : String
  commit : String
  globalIntent : Option GlobalIntent
  entries : List Entry
deriving DecidableEq, Repr

/-! ## Schema migrator (src/manifest/storage.rs, `migrate_v1_to_v2`) -/

/-- Compatibility-block part of the per-entry migration loop in
`migrate_v1_to_v2` (storage.rs lines 79-92): initialize missing
`deprecations`/`migrations` to empty lists, and force `breaking := true`
when a legacy breaking flag is `Some(true)`. -/
def migrateCompat (c : Compatibility) : Compatibility :=
  let c := if c.deprecations.isNone then { c with deprecations := some [] } else c
  let c := if c.migrations.isNone then { c with migrations := some [] } else c
  if c.binaryBreaking = some true ∨ c.sourceBreaking = some true then
    { c with breaking := true }
  else c

/-- Per-entry body of the `for entry in &mut manifest.entries` loop in
`migrate_v1_to_v2` (storage.rs lines 78-98): migrate the compatibility
block when present, then default an empty `hunk_id` to `"H#0"`. -/
def migrateEntry (e : Entry) : Entry :=
  let e := match e.compatibility with
    | some c => { e with compatibility := some (migrateCompat c) }
    | none => e
  if e.anchor.hunkId.isEmpty then
    { e with anchor := { e.anchor with hunkId := "H#0" } }
  else e

/-- `migrate_v1_to_v2` (storage.rs lines 73-101): set the schema version to
2.0 and run the per-entry migration over all entries. -/
def migrate_v1_to_v2 (m : Manifest) : Manifest :=
  { m with schemaVersion := SCHEMA_VERSION_2_0, entries := m.entries.map migrateEntry }

/-- Normalization performed inside `load` (storage.rs lines 30-38) after the
JSON payload has been parsed into a `Manifest`: migrate exactly when the
parsed schema version is empty or `"1.0"`. JSON parsing itself is treated
as the identity on already-parsed manifests, so `load = loadNormalize ∘
parse`; this definition is the part of `load` the schema-version claims are
about. -/
def loadNormalize (m : Manifest) : Manifest :=
  if m.schemaVersion.isEmpty || m.schemaVersion == SCHEMA_VERSION_1_0 then
    migrate_v1_to_v2 m
  else m

/-! ### Migration lemmas -/

theorem migrateCompat_idem (c : Compatibility) :
    migrateCompat (migrateCompat c) = migrateCompat c := by
  obtain ⟨br, dep, mig, bb, sb, dmm⟩ := c
  cases dep <;> cases mig <;>
    by_cases h : bb = some true ∨ sb = some true <;>
    simp [migrateCompat, h]

theorem hunkIdDefault_not_empty : ("H#0" : String).isEmpty = false := rfl

theorem migrateEntry_idem (e : Entry) :
    migrateEntry (migrateEntry e) = migrateEntry e := by
  obtain ⟨a, ct, rat, sd, bc, co, se, compat, tt, pb, sn, ff, igi⟩ := e
  obtain ⟨f, sym, hid⟩ := a
  cases compat with
  | none =>
    by_cases h : hid.isEmpty <;>
      simp [migrateEntry, h, hunkIdDefault_not_empty]
  | some c =>
    by_cases h : hid.isEmpty <;>
      simp [migrateEntry, h, migrateCompat_idem, hunkIdDefault_not_empty]

theorem migrateEntry_breaking (e : Entry) (c : Compatibility)
    (hc : (migrateEntry e).compatibility = some c)
    (hflag : c.binaryBreaking = some true ∨ c.sourceBreaking = some true) :
    c.breaking = true := by
  obtain ⟨a, ct, rat, sd, bc, co, se, compat, tt, pb, sn, ff, igi⟩ := e
  cases compat with
  | none =>
    simp [migrateEntry] at hc
    split at hc <;> simp_all
  | some c0 =>
    have hc' : c = migrateCompat c0 := by
      simp [migrateEntry] at hc
      split at hc <;> simp_all
    subst hc'
    obtain ⟨br, dep, mig, bb, sb, dmm⟩ := c0
    cases dep <;> cases mig <;>
      by_cases h : bb = some true ∨ sb = some true <;>
      simp_all [migrateCompat]

theorem empty_isEmpty : ("" : String).isEmpty = true := rfl

theorem migrateEntry_hunkId (e : Entry) (h : e.anchor.hunkId = "") :
    (migrateEntry e).anchor.hunkId = "H#0" := by
  obtain ⟨a, ct, rat, sd, bc, co, se, compat, tt, pb, sn, ff, igi⟩ := e
  obtain ⟨f, sym, hid⟩ := a
  simp only at h
  subst h
  cases compat <;> simp [migrateEntry, empty_isEmpty]

theorem migrateEntry_legacy (e : Entry) :
    (migrateEntry e).compatibility.map
        (fun c => (c.binaryBreaking, c.sourceBreaking, c.dataModelMigration))
      = e.compatibility.map
        (fun c => (c.binaryBreaking, c.sourceBreaking, c.dataModelMigration)) := by
  obtain ⟨a, ct, rat, sd, bc, co, se, compat, tt, pb, sn, ff, igi⟩ := e
  cases compat with
  | none => by_cases h : a.hunkId.isEmpty <;> simp [migrateEntry, h]
  | some c0 =>
    obtain ⟨br, dep, mig, bb, sb, dmm⟩ := c0
    by_cases h : a.hunkId.isEmpty <;>
      cases dep <;> cases mig <;>
      by_cases hb : bb = some true ∨ sb = some true <;>
      simp [migrateEntry, migrateCompat, h, hb]

theorem migrateCompat_normalized_id (c : Compatibility)
    (hdep : c.deprecations.isSome) (hmig : c.migrations.isSome)
    (hbr : (c.binaryBreaking = some true ∨ c.sourceBreaking = some true) →
      c.breaking = true) :
    migrateCompat c = c := by
  obtain ⟨br, dep, mig, bb, sb, dmm⟩ := c
  cases dep with
  | none => simp at hdep
  | some d =>
    cases mig with
    | none => simp at hmig
    | some mg =>
      by_cases h : bb = some true ∨ sb = some true
      · have hb : br = true := hbr h
        subst hb
        simp [migrateCompat, h]
      · simp [migrateCompat, h]

theorem migrateEntry_normalized_id (e : Entry)
    (hh : e.anchor.hunkId.isEmpty = false)
    (hc : ∀ c, e.compatibility = some c →
      c.deprecations.isSome ∧ c.migrations.isSome ∧
      ((c.binaryBreaking = some true ∨ c.sourceBreaking = some true) →
        c.breaking = true)) :
    migrateEntry e = e := by
  obtain ⟨a, ct, rat, sd, bc, co, se, compat, tt, pb, sn, ff, igi⟩ := e
  cases compat with
  | none => simp_all [migrateEntry]
  | some c0 =>
    obtain ⟨h1, h2, h3⟩ := hc c0 rfl
    simp_all [migrateEntry, migrateCompat_normalized_id c0 h1 h2 h3]

/-! ## Claim theorems on migration and load normalization -/

/-- C5: the Schema Migrator is idempotent — for every manifest `m`,
`migrate(migrate(m)) == migrate(m)`. -/
theorem migrate_idempotent (m : Manifest) :
    migrate_v1_to_v2 (migrate_v1_to_v2 m) = migrate_v1_to_v2 m := by
  simp [migrate_v1_to_v2, Function.comp, migrateEntry_idem]

/-- C6 counterexample: a manifest whose schema version is already the
current one, with one entry whose compatibility block has absent
`deprecations`/`migrations`; `migrate_v1_to_v2` initializes those fields
to empty lists, so the result is not structurally equal to the input. -/
def c6Manifest : Manifest :=
  { schemaVersion := SCHEMA_VERSION_2_0, commit := "abc", globalIntent := none,
    entries := [
      { anchor := ⟨"src/main.rs", "main", "H#1"⟩, changeType := "modify",
        rationale := "r", signatureDelta := none, behaviorClass := [],
        contract := ⟨none, none, [], [], []⟩, sideEffects := [],
        compatibility := some ⟨false, none, none, none, none, none⟩,
        testsTouched := none, perfBudget := none, securityNotes := none,
        featureFlags := none, inheritsGlobalIntent := none }] }

/-- C6 is false as stated: `c6Manifest` already has the current schema
version, yet migrating it changes it (the compatibility block's absent
`deprecations`/`migrations` are initialized to empty lists). -/
theorem migrate_current_counterexample :
    c6Manifest.schemaVersion = SCHEMA_VERSION_CURRENT ∧
    migrate_v1_to_v2 c6Manifest ≠ c6Manifest := by
  refine ⟨rfl, ?_⟩
  decide

/-- C6 amended: migrating a manifest returns it structurally unchanged
when it is already in fully migrated form — current schema version, no
entry with an empty anchor hunkId, and every compatibility block already
has `deprecations`/`migrations` present and `breaking = true` whenever a
legacy breaking flag is `some true`. (Migrating a merely current-version
manifest can still initialize absent compatibility list fields.) -/
theorem migrate_current_amended (m : Manifest)
    (hv : m.schemaVersion = SCHEMA_VERSION_CURRENT)
    (he : ∀ e ∈ m.entries,
      e.anchor.hunkId.isEmpty = false ∧
      ∀ c, e.compatibility = some c →
        c.deprecations.isSome ∧ c.migrations.isSome ∧
        ((c.binaryBreaking = some true ∨ c.sourceBreaking = some true) →
          c.breaking = true)) :
    migrate_v1_to_v2 m = m := by
  obtain ⟨sv, cm, gi, es⟩ := m
  simp only at hv he
  subst hv
  have hes : es.map migrateEntry = es := by
    induction es with
    | nil => rfl
    | cons e es ih =>
      have h0 := he e (List.mem_cons_self e es)
      simp only [List.map_cons, migrateEntry_normalized_id e h0.1 h0.2,
        List.cons.injEq, true_and]
      exact ih (fun x hx => he x (List.mem_cons_of_mem e hx))
  simp [migrate_v1_to_v2, SCHEMA_VERSION_CURRENT, SCHEMA_VERSION_2_0, hes]

/-- C6 witness: the amended theorem applied to a concrete fully migrated
manifest. -/
def c6NormManifest : Manifest :=
  { schemaVersion := SCHEMA_VERSION_2_0, commit := "abc", globalIntent := none,
    entries := [
      { anchor := ⟨"src/main.rs", "main", "H#1"⟩, changeType := "modify",
        rationale := "r", signatureDelta := none, behaviorClass := [],
        contract := ⟨none, none, [], [], []⟩, sideEffects := [],
        compatibility := some ⟨true, some [], some [], some true, none, none⟩,
        testsTouched := none, perfBudget := none, securityNotes := none,
        featureFlags := none, inheritsGlobalIntent := none }] }

theorem migrate_current_amended_witness :
    migrate_v1_to_v2 c6NormManifest = c6NormManifest :=
  migrate_current_amended c6NormManifest rfl (by decide)

/-- C7: after migrating any manifest, every entry with a compatibility
block whose legacy `binaryBreaking` or `sourceBreaking` is `some true` has
`breaking = true`; every entry whose anchor hunkId was empty before
migration ends with hunkId `"H#0"`; and the legacy boolean fields are
never cleared by migration. -/
theorem migrate_correctness (m : Manifest) (i : Nat) (e e' : Entry)
    (h : m.entries[i]? = some e)
    (h' : (migrate_v1_to_v2 m).entries[i]? = some e') :
    (∀ c, e'.compatibility = some c →
      (c.binaryBreaking = some true ∨ c.sourceBreaking = some true) →
      c.breaking = true)
    ∧ (e.anchor.hunkId = "" → e'.anchor.hunkId = "H#0")
    ∧ e'.compatibility.map
        (fun c => (c.binaryBreaking, c.sourceBreaking, c.dataModelMigration))
      = e.compatibility.map
        (fun c => (c.binaryBreaking, c.sourceBreaking, c.dataModelMigration)) := by
  have hm : e' = migrateEntry e := by
    simp only [migrate_v1_to_v2, List.getElem?_map, h] at h'
    exact Option.some_inj.mp h'.symm
  subst hm
  exact ⟨fun c hc => migrateEntry_breaking e c hc,
    migrateEntry_hunkId e, migrateEntry_legacy e⟩

/-- C7 legacy sample manifest: one v1.0-style entry with an empty hunkId
and `binaryBreaking = some true`. -/
def c7Manifest : Manifest :=
  { schemaVersion := SCHEMA_VERSION_1_0, commit := "old123", globalIntent := none,
    entries := [
      { anchor := ⟨"old.rs", "old_fn", ""⟩, changeType := "modify",
        rationale := "", signatureDelta := none, behaviorClass := ["bugfix"],
        contract := ⟨none, none, [], [], []⟩, sideEffects := [],
        compatibility := some ⟨false, none, none, some true, some false, none⟩,
        testsTouched := none, perfBudget := none, securityNotes := none,
        featureFlags := none, inheritsGlobalIntent := none }] }

theorem migrate_correctness_witness :
    ((migrate_v1_to_v2 c7Manifest).entries[0]?.map
        (fun e => (e.anchor.hunkId, e.compatibility.map (·.breaking))))
      = some ("H#0", some true) := by
  have h := migrate_correctness c7Manifest 0
    (c7Manifest.entries.get ⟨0, by decide⟩)
    ((migrate_v1_to_v2 c7Manifest).entries.get ⟨0, by decide⟩)
    (by decide) (by decide)
  have h1 := h.2.1 (by decide)
  have h2 := h.1 ⟨true, some [], some [], some true, some false, none⟩
    (by decide) (Or.inl (by decide))
  decide

/-- C3 counterexample subject: a parsed payload whose schemaVersion is the
unrecognized non-empty string `"9.9"`. -/
def c3Manifest : Manifest :=
  { schemaVersion := "9.9", commit := "c3", globalIntent := none, entries := [] }

/-- C3 is false as stated: `load` migrates only when the parsed schema
version is empty or `"1.0"`, so a payload with unrecognized non-empty
version `"9.9"` is returned unnormalized, not at the current version. -/
theorem load_normalizes_counterexample :
    loadNormalize c3Manifest = c3Manifest ∧
    c3Manifest.schemaVersion ≠ SCHEMA_VERSION_CURRENT := by
  refine ⟨?_, by decide⟩
  decide

/-- C3 amended: `load` normalizes the returned manifest to the current
schema version exactly when the parsed payload's schemaVersion is empty or
the recognized legacy version `"1.0"`; any other schemaVersion (including
unrecognized non-empty strings) is returned as parsed. -/
theorem load_normalizes_amended (m : Manifest) :
    ((m.schemaVersion = "" ∨ m.schemaVersion = SCHEMA_VERSION_1_0) →
      (loadNormalize m).schemaVersion = SCHEMA_VERSION_CURRENT)
    ∧ (m.schemaVersion ≠ "" → m.schemaVersion ≠ SCHEMA_VERSION_1_0 →
      loadNormalize m = m) := by
  constructor
  · intro h
    have hc : (m.schemaVersion.isEmpty || m.schemaVersion == SCHEMA_VERSION_1_0)
        = true := by
      rcases h with h | h <;> simp [h, String.isEmpty]
    simp [loadNormalize, hc, migrate_v1_to_v2, SCHEMA_VERSION_CURRENT]
  · intro h1 h2
    have hc : ¬ ((m.schemaVersion.isEmpty ||
        m.schemaVersion == SCHEMA_VERSION_1_0) = true) := by
      have h2' : m.schemaVersion ≠ "1.0" := h2
      simp [String.isEmpty_iff, SCHEMA_VERSION_1_0, h1, h2']
    simp [loadNormalize, hc]

/-- C3 legacy sample: an empty-schema-version payload. -/
def c3LegacyManifest : Manifest :=
  { schemaVersion := "", commit := "c3b", globalIntent := none, entries := [] }

theorem load_normalizes_amended_witness :
    (loadNormalize c3LegacyManifest).schemaVersion = SCHEMA_VERSION_CURRENT ∧
    loadNormalize c3Manifest = c3Manifest :=
  ⟨(load_normalizes_amended c3LegacyManifest).1 (Or.inl rfl),
    (load_normalizes_amended c3Manifest).2 (by decide) (by decide)⟩

/-! ## Canonical structured notation (storage.rs `save`/`load`)

`save` serializes a `Manifest` with `serde_json::to_string_pretty` and `load`
parses it back with `serde_json::from_str`. The codec is modelled at the
JSON-value level (JSON text represents these values exactly: all numbers
involved are `i32`), with the serde derive's field names (`camelCase`),
field order, and skip rules (`skip_serializing_if = "Option::is_none"`,
`#[serde(default, skip_serializing_if = "Vec::is_empty")]`) reproduced
field by field, and serde's decoding defaults (a missing `Option` field is
`None`, a missing `#[serde(default)]` list is empty, other missing or
ill-typed fields are an error). -/

/-- JSON value tree. -/
inductive Json where
  | str : String → Json
  | num : Int → Json
  | bool : Bool → Json
  | arr : List Json → Json
  | obj : List (String × Json) → Json

/-- Field emitted only when the Option is populated
(`#[serde(skip_serializing_if = "Option::is_none")]`). -/
def optField {α : Type} (key : String) (o : Option α) (f : α → Json) :
    List (String × Json) :=
  match o with
  | none => []
  | some x => [(key, f x)]

/-- Encoding of a `Vec<String>`. -/
def encodeStrList (l : List String) : Json := Json.arr (l.map Json.str)

/-- String-list field emitted only when non-empty
(`#[serde(default, skip_serializing_if = "Vec::is_empty")]`). -/
def vecField (key : String) (l : List String) : List (String × Json) :=
  if l.isEmpty then [] else [(key, encodeStrList l)]

def encodeAnchor (a : Anchor) : Json :=
  .obj [("file", .str a.file), ("symbol", .str a.symbol),
    ("hunkId", .str a.hunkId)]

def encodeSignatureDelta (s : SignatureDelta) : Json :=
  .obj [("before", .str s.before), ("after", .str s.after)]

def encodeContract (c : Contract) : Json :=
  .obj (optField "inputs" c.inputs encodeStrList
    ++ optField "outputs" c.outputs Json.str
    ++ vecField "preconditions" c.preconditions
    ++ vecField "postconditions" c.postconditions
    ++ vecField "errorModel" c.errorModel)

def encodeCompatibility (c : Compatibility) : Json :=
  .obj ([("breaking", Json.bool c.breaking)]
    ++ optField "deprecations" c.deprecations encodeStrList
    ++ optField "migrations" c.migrations encodeStrList
    ++ optField "binaryBreaking" c.binaryBreaking Json.bool
    ++ optField "sourceBreaking" c.sourceBreaking Json.bool
    ++ optField "dataModelMigration" c.dataModelMigration Json.bool)

def encodePerfBudget (p : PerfBudget) : Json :=
  .obj (optField "expectedMaxLatencyMs" p.expectedMaxLatencyMs Json.num
    ++ optField "cpuDeltaPct" p.cpuDeltaPct Json.num)

def encodeGlobalIntent (g : GlobalIntent) : Json :=
  .obj [("behaviorClass", encodeStrList g.behaviorClass),
    ("rationale", .str g.rationale)]

/-- The field list of a serialized `Entry`, in struct order with the serde
skip rules. -/
def entryFields (e : Entry) : List (String × Json) :=
  [("anchor", encodeAnchor e.anchor),
      ("changeType", .str e.changeType),
      ("rationale", .str e.rationale)]
    ++ optField "signatureDelta" e.signatureDelta encodeSignatureDelta
    ++ [("behaviorClass", encodeStrList e.behaviorClass),
      ("contract", encodeContract e.contract)]
    ++ vecField "sideEffects" e.sideEffects
    ++ optField "compatibility" e.compatibility encodeCompatibility
    ++ optField "testsTouched" e.testsTouched encodeStrList
    ++ optField "perfBudget" e.perfBudget encodePerfBudget
    ++ optField "securityNotes" e.securityNotes encodeStrList
    ++ optField "featureFlags" e.featureFlags encodeStrList
    ++ optField "inheritsGlobalIntent" e.inheritsGlobalIntent Json.bool

def encodeEntry (e : Entry) : Json := .obj (entryFields e)

/-- `encodeCanonical`: the canonical structured notation written by `save`. -/
def encodeManifest (m : Manifest) : Json :=
  .obj ([("schemaVersion", .str m.schemaVersion), ("commit", .str m.commit)]
    ++ optField "globalIntent" m.globalIntent encodeGlobalIntent
    ++ [("entries", Json.arr (m.entries.map encodeEntry))])

/-- Object field lookup. -/
def getField : List (String × Json) → String → Option Json
  | [], _ => none
  | (k, v) :: fs, key => if k = key then some v else getField fs key

def asStr : Json → Option String
  | .str s => some s
  | _ => none

def asBool : Json → Option Bool
  | .bool b => some b
  | _ => none

def asNum : Json → Option Int
  | .num n => some n
  | _ => none

def decStrs : List Json → Option (List String)
  | [] => some []
  | j :: js =>
    match asStr j, decStrs js with
    | some s, some ss => some (s :: ss)
    | _, _ => none

def decStrList : Json → Option (List String)
  | .arr js => decStrs js
  | _ => none

/-- Optional field: absent decodes to `none` (serde's implicit behavior for
`Option` fields); a present field must decode. -/
def getOpt {α : Type} (fs : List (String × Json)) (key : String)
    (dec : Json → Option α) : Option (Option α) :=
  match getField fs key with
  | none => some none
  | some j => (dec j).map some

/-- Required field. -/
def getReq {α : Type} (fs : List (String × Json)) (key : String)
    (dec : Json → Option α) : Option α :=
  (getField fs key).bind dec

/-- `#[serde(default)]` string-list field: absent decodes to `[]`. -/
def getVec (fs : List (String × Json)) (key : String) : Option (List String) :=
  match getField fs key with
  | none => some []
  | some j => decStrList j

def decodeAnchor : Json → Option Anchor
  | .obj fs =>
    match getReq fs "file" asStr, getReq fs "symbol" asStr,
        getReq fs "hunkId" asStr with
    | some f, some s, some h => some ⟨f, s, h⟩
    | _, _, _ => none
  | _ => none

def decodeSignatureDelta : Json → Option SignatureDelta
  | .obj fs =>
    match getReq fs "before" asStr, getReq fs "after" asStr with
    | some b, some a => some ⟨b, a⟩
    | _, _ => none
  | _ => none

def decodeContract : Json → Option Contract
  | .obj fs =>
    match getOpt fs "inputs" decStrList, getOpt fs "outputs" asStr,
        getVec fs "preconditions", getVec fs "postconditions",
        getVec fs "errorModel" with
    | some i, some o, some pre, some post, some em =>
      some ⟨i, o, pre, post, em⟩
    | _, _, _, _, _ => none
  | _ => none

def decodeCompatibility : Json → Option Compatibility
  | .obj fs =>
    match getReq fs "breaking" asBool, getOpt fs "deprecations" decStrList,
        getOpt fs "migrations" decStrList, getOpt fs "binaryBreaking" asBool,
        getOpt fs "sourceBreaking" asBool,
        getOpt fs "dataModelMigration" asBool with
    | some br, some d, some mg, some bb, some sb, some dm =>
      some ⟨br, d, mg, bb, sb, dm⟩
    | _, _, _, _, _, _ => none
  | _ => none

def decodePerfBudget : Json → Option PerfBudget
  | .obj fs =>
    match getOpt fs "expectedMaxLatencyMs" asNum,
        getOpt fs "cpuDeltaPct" asNum with
    | some l, some c => some ⟨l, c⟩
    | _, _ => none
  | _ => none

def decodeGlobalIntent : Json → Option GlobalIntent
  | .obj fs =>
    match getReq fs "behaviorClass" decStrList, getReq fs "rationale" asStr with
    | some bc, some r => some ⟨bc, r⟩
    | _, _ => none
  | _ => none

def decodeEntry : Json → Option Entry
  | .obj fs =>
    match getReq fs "anchor" decodeAnchor, getReq fs "changeType" asStr,
        getReq fs "rationale" asStr,
        getOpt fs "signatureDelta" decodeSignatureDelta,
        getReq fs "behaviorClass" decStrList,
        getReq fs "contract" decodeContract,
        getVec fs "sideEffects",
        getOpt fs "compatibility" decodeCompatibility,
        getOpt fs "testsTouched" decStrList,
        getOpt fs "perfBudget" decodePerfBudget,
        getOpt fs "securityNotes" decStrList,
        getOpt fs "featureFlags" decStrList,
        getOpt fs "inheritsGlobalIntent" asBool with
    | some a, some ct, some r, some sd, some bc, some co, some se, some cp,
        some tt, some pb, some sn, some ffl, some ig =>
      some ⟨a, ct, r, sd, bc, co, se, cp, tt, pb, sn, ffl, ig⟩
    | _, _, _, _, _, _, _, _, _, _, _, _, _ => none
  | _ => none

def decEntries : List Json → Option (List Entry)
  | [] => some []
  | j :: js =>
    match decodeEntry j, decEntries js with
    | some e, some es => some (e :: es)
    | _, _ => none

def decEntryList : Json → Option (List Entry)
  | .arr js => decEntries js
  | _ => none

/-- `decodeCanonical`: the parse performed by `load` (before migration). -/
def decodeManifest : Json → Option Manifest
  | .obj fs =>
    match getReq fs "schemaVersion" asStr, getReq fs "commit" asStr,
        getOpt fs "globalIntent" decodeGlobalIntent,
        getReq fs "entries" decEntryList with
    | some sv, some cm, some gi, some es => some ⟨sv, cm, gi, es⟩
    | _, _, _, _ => none
  | _ => none

/-! ### Round-trip lemmas for the canonical codec -/

theorem decStrs_map (l : List String) : decStrs (l.map Json.str) = some l := by
  induction l with
  | nil => rfl
  | cons a t ih => simp [decStrs, asStr, ih]

theorem decStrList_enc (l : List String) :
    decStrList (encodeStrList l) = some l := by
  simp [decStrList, encodeStrList, decStrs_map]

theorem decodeAnchor_enc (a : Anchor) :
    decodeAnchor (encodeAnchor a) = some a := rfl

theorem decodeSignatureDelta_enc (s : SignatureDelta) :
    decodeSignatureDelta (encodeSignatureDelta s) = some s := rfl

theorem decodePerfBudget_enc (p : PerfBudget) :
    decodePerfBudget (encodePerfBudget p) = some p := by
  obtain ⟨l, c⟩ := p
  cases l <;> cases c <;> rfl

theorem decodeGlobalIntent_enc (g : GlobalIntent) :
    decodeGlobalIntent (encodeGlobalIntent g) = some g := by
  obtain ⟨bc, r⟩ := g
  simp [decodeGlobalIntent, encodeGlobalIntent, getReq, getField, asStr,
    decStrList_enc]

theorem decodeContract_enc (c : Contract) :
    decodeContract (encodeContract c) = some c := by
  obtain ⟨i, o, pre, post, em⟩ := c
  cases i <;> cases o <;> cases pre <;> cases post <;> cases em <;>
    simp [decodeContract, encodeContract, getOpt, getVec, getReq, getField,
      optField, vecField, encodeStrList, decStrList, decStrs_map, decStrs,
      asStr]

theorem decodeCompatibility_enc (c : Compatibility) :
    decodeCompatibility (encodeCompatibility c) = some c := by
  obtain ⟨br, dep, mig, bb, sb, dmm⟩ := c
  cases dep <;> cases mig <;> cases bb <;> cases sb <;> cases dmm <;>
    simp [decodeCompatibility, encodeCompatibility, getOpt, getReq, getField,
      optField, asBool, decStrList_enc]

/-! ### Field-lookup lemmas for the skip-aware `Entry` encoding -/

theorem getField_cons_self (k : String) (v : Json) (fs : List (String × Json)) :
    getField ((k, v) :: fs) k = some v := by
  simp [getField]

theorem getField_cons_ne (k' k : String) (v : Json) (fs : List (String × Json))
    (h : ¬ k' = k) : getField ((k', v) :: fs) k = getField fs k := by
  simp [getField, h]

theorem getField_optField_ne {α : Type} (k' k : String) (o : Option α)
    (f : α → Json) (rest : List (String × Json)) (h : ¬ k' = k) :
    getField (optField k' o f ++ rest) k = getField rest k := by
  cases o <;> simp [optField, getField, h]

theorem getField_optField_self {α : Type} (k : String) (o : Option α)
    (f : α → Json) (rest : List (String × Json)) :
    getField (optField k o f ++ rest) k =
      (match o with
        | some x => some (f x)
        | none => getField rest k) := by
  cases o <;> simp [optField, getField]

theorem getField_optField_last_ne {α : Type} (k' k : String) (o : Option α)
    (f : α → Json) (h : ¬ k' = k) : getField (optField k' o f) k = none := by
  cases o <;> simp [optField, getField, h]

theorem getField_optField_last_self {α : Type} (k : String) (o : Option α)
    (f : α → Json) : getField (optField k o f) k = o.map f := by
  cases o <;> simp [optField, getField]

theorem getField_vecField_ne (k' k : String) (l : List String)
    (rest : List (String × Json)) (h : ¬ k' = k) :
    getField (vecField k' l ++ rest) k = getField rest k := by
  by_cases hl : l.isEmpty <;> simp [vecField, hl, getField, h]

theorem getField_vecField_self (k : String) (l : List String)
    (rest : List (String × Json)) :
    getField (vecField k l ++ rest) k =
      (if l.isEmpty then getField rest k else some (encodeStrList l)) := by
  by_cases hl : l.isEmpty <;> simp [vecField, hl, getField]

theorem entryFields_anchor (e : Entry) :
    getReq (entryFields e) "anchor" decodeAnchor = some e.anchor := by
  simp [entryFields, getReq, List.cons_append, getField_cons_self,
    decodeAnchor_enc]

theorem entryFields_changeType (e : Entry) :
    getReq (entryFields e) "changeType" asStr = some e.changeType := by
  simp [entryFields, getReq, List.cons_append, getField_cons_self,
    getField_cons_ne, asStr]

theorem entryFields_rationale (e : Entry) :
    getReq (entryFields e) "rationale" asStr = some e.rationale := by
  simp [entryFields, getReq, List.cons_append, getField_cons_self,
    getField_cons_ne, asStr]

theorem entryFields_sigDelta (e : Entry) :
    getOpt (entryFields e) "signatureDelta" decodeSignatureDelta
      = some e.signatureDelta := by
  cases h : e.signatureDelta <;>
    simp [entryFields, getOpt, List.cons_append, getField_cons_ne,
      getField_optField_self, getField_optField_ne, getField_vecField_ne,
      getField_optField_last_ne, h, decodeSignatureDelta_enc]

theorem entryFields_behaviorClass (e : Entry) :
    getReq (entryFields e) "behaviorClass" decStrList
      = some e.behaviorClass := by
  simp [entryFields, getReq, List.cons_append, getField_cons_self,
    getField_cons_ne, getField_optField_ne, decStrList_enc]

theorem entryFields_contract (e : Entry) :
    getReq (entryFields e) "contract" decodeContract = some e.contract := by
  simp [entryFields, getReq, List.cons_append, getField_cons_self,
    getField_cons_ne, getField_optField_ne, decodeContract_enc]

theorem entryFields_sideEffects (e : Entry) :
    getVec (entryFields e) "sideEffects" = some e.sideEffects := by
  cases h : e.sideEffects <;>
    simp [entryFields, getVec, List.cons_append, getField_cons_ne,
      getField_optField_ne, getField_vecField_self, h,
      getField_optField_last_ne, decStrList_enc]

theorem entryFields_compatibility (e : Entry) :
    getOpt (entryFields e) "compatibility" decodeCompatibility
      = some e.compatibility := by
  cases h : e.compatibility <;>
    simp [entryFields, getOpt, List.cons_append, getField_cons_ne,
      getField_optField_ne, getField_vecField_ne, getField_optField_self,
      getField_optField_last_ne, h, decodeCompatibility_enc]

theorem entryFields_testsTouched (e : Entry) :
    getOpt (entryFields e) "testsTouched" decStrList
      = some e.testsTouched := by
  cases h : e.testsTouched <;>
    simp [entryFields, getOpt, List.cons_append, getField_cons_ne,
      getField_optField_ne, getField_vecField_ne, getField_optField_self,
      getField_optField_last_ne, h, decStrList_enc]

theorem entryFields_perfBudget (e : Entry) :
    getOpt (entryFields e) "perfBudget" decodePerfBudget
      = some e.perfBudget := by
  cases h : e.perfBudget <;>
    simp [entryFields, getOpt, List.cons_append, getField_cons_ne,
      getField_optField_ne, getField_vecField_ne, getField_optField_self,
      getField_optField_last_ne, h, decodePerfBudget_enc]

theorem entryFields_securityNotes (e : Entry) :
    getOpt (entryFields e) "securityNotes" decStrList
      = some e.securityNotes := by
  cases h : e.securityNotes <;>
    simp [entryFields, getOpt, List.cons_append, getField_cons_ne,
      getField_optField_ne, getField_vecField_ne, getField_optField_self,
      getField_optField_last_ne, h, decStrList_enc]

theorem entryFields_featureFlags (e : Entry) :
    getOpt (entryFields e) "featureFlags" decStrList
      = some e.featureFlags := by
  cases h : e.featureFlags <;>
    simp [entryFields, getOpt, List.cons_append, getField_cons_ne,
      getField_optField_ne, getField_vecField_ne, getField_optField_self,
      getField_optField_last_ne, h, decStrList_enc]

theorem entryFields_inheritsGlobalIntent (e : Entry) :
    getOpt (entryFields e) "inheritsGlobalIntent" asBool
      = some e.inheritsGlobalIntent := by
  cases h : e.inheritsGlobalIntent <;>
    simp [entryFields, getOpt, List.cons_append, getField_cons_ne,
      getField_optField_ne, getField_vecField_ne,
      getField_optField_last_self, h, asBool]

theorem decodeEntry_enc (e : Entry) : decodeEntry (encodeEntry e) = some e := by
  simp [decodeEntry, encodeEntry, entryFields_anchor, entryFields_changeType,
    entryFields_rationale, entryFields_sigDelta, entryFields_behaviorClass,
    entryFields_contract, entryFields_sideEffects, entryFields_compatibility,
    entryFields_testsTouched, entryFields_perfBudget,
    entryFields_securityNotes, entryFields_featureFlags,
    entryFields_inheritsGlobalIntent]

theorem decEntries_map (l : List Entry) :
    decEntries (l.map encodeEntry) = some l := by
  induction l with
  | nil => rfl
  | cons e t ih => simp [decEntries, decodeEntry_enc, ih]

/-- C4: the canonical codec round-trips — for every valid Manifest `m`,
decoding the canonical structured notation produced by encoding `m` (the
JSON serialization of `Manifest` used by `save` and `load`) yields a
manifest equal to `m`. -/
theorem canonical_round_trip (m : Manifest) :
    decodeManifest (encodeManifest m) = some m := by
  obtain ⟨sv, cm, gi, es⟩ := m
  cases gi <;>
    simp [decodeManifest, encodeManifest, getReq, getOpt, getField,
      List.cons_append, getField_cons_self, getField_cons_ne,
      getField_optField_ne, getField_optField_self, asStr, decEntryList,
      decEntries_map, decodeGlobalIntent_enc]

/-! ## Conflict enrichment engine (src/merge.rs)

Conflicted-file text and its lines are modelled as `List Char` so that
Rust's byte-level line handling (`str::lines`, CRLF stripping, optional
final newline) is captured exactly. Rust's `char::is_whitespace` is
modelled by `Char.isWhitespace` (they agree on ASCII text). The
`path.exists()` guard and the git-notes manifest loads are external I/O:
the function below receives the file content and the two already-loaded
optional manifests. -/

/-- `CONFLICT_START` constant `"<<<<<<<"` (merge.rs). -/
def CONFLICT_START : List Char := "<<<<<<<".toList

/-- `CONFLICT_MIDDLE` constant `"======="` (merge.rs). -/
def CONFLICT_MIDDLE : List Char := "=======".toList

/-- `CONFLICT_END` constant `">>>>>>>"` (merge.rs). -/
def CONFLICT_END : List Char := ">>>>>>>".toList

/-- Rust `str::contains(pat)` for a substring pattern: some suffix of the
text starts with the pattern. -/
def containsSub (pat : List Char) : List Char → Bool
  | [] => pat.isEmpty
  | x :: xs => pat.isPrefixOf (x :: xs) || containsSub pat xs

/-- Split on a separator character; pieces do not include the separator. -/
def splitOnChar (c : Char) : List Char → List (List Char)
  | [] => [[]]
  | x :: xs =>
    match splitOnChar c xs with
    | [] => [[]]
    | r :: rs => if x = c then [] :: r :: rs else (x :: r) :: rs

/-- Strip one trailing `'\r'` (the CR of a CRLF line ending). -/
def stripTrailingCR (l : List Char) : List Char :=
  if l.getLast? = some '\r' then l.dropLast else l

/-- Rust `str::lines`: split at `'\n'`, strip the CR of each CRLF ending,
treat the final line ending as optional (a last piece that came without a
newline terminator is yielded as-is, CR included, exactly as Rust does). -/
def rustLines (s : List Char) : List (List Char) :=
  let ps := splitOnChar '\n' s
  match ps.getLast? with
  | some [] => ps.dropLast.map stripTrailingCR
  | some last => ps.dropLast.map stripTrailingCR ++ [last]
  | none => []

/-- Rust `str::trim_start_matches(CONFLICT_END)`: repeatedly strip the
7-character end marker from the front. The fuel argument `l.length` bounds
the iteration count (each strip removes 7 > 0 characters, so at most
`l.length` strips happen and the fuel is never exhausted early). -/
def stripEndMarkerAux : Nat → List Char → List Char
  | 0, l => l
  | fuel + 1, l =>
    if CONFLICT_END.isPrefixOf l then
      stripEndMarkerAux fuel (l.drop CONFLICT_END.length)
    else l

def stripEndMarker (l : List Char) : List Char := stripEndMarkerAux l.length l

/-- Rust `str::trim` (leading and trailing whitespace). -/
def trimChars (l : List Char) : List Char :=
  ((l.dropWhile Char.isWhitespace).reverse.dropWhile Char.isWhitespace).reverse

/-- Rust `Path::file_name` for Unix-style paths, as used by `find_entry`:
the last path component after dropping separators and `"."` components,
with no file name when the path is empty, is a bare root, or ends in
`".."`. -/
def fileNameOfPath (p : String) : Option String :=
  let comps := (splitOnChar '/' p.toList).filter
    (fun c => !c.isEmpty && c != ['.'])
  match comps.getLast? with
  | some last => if last = ['.', '.'] then none else some (String.mk last)
  | none => none

/-- `line.contains(&entry.anchor.symbol)` in `find_entry`. -/
def symbolMatches (e : Entry) (line : List Char) : Bool :=
  containsSub e.anchor.symbol.toList line

/-- `line.chars().take_while(|c| c.is_whitespace()).count()` in
`find_entry`. -/
def lineIndent (line : List Char) : Nat :=
  (line.takeWhile Char.isWhitespace).length

/-- One line of the backward scan in `find_entry` (merge.rs lines 221-237):
fold the candidate entries over the current line, updating the
(best_entry, min_indent) state on strict indentation improvement. The Rust
initial `min_indent = usize::MAX` (together with `best_entry = None`) is
modelled as the `none` state, against which any indent is an improvement. -/
def entryStep (line : List Char) (bm : Option Entry × Option Nat)
    (e : Entry) : Option Entry × Option Nat :=
  if symbolMatches e line then
    if (match bm.2 with
        | none => true
        | some m => decide (lineIndent line < m)) then
      (some e, some (lineIndent line))
    else bm
  else bm

def scanStep (fes : List Entry) (st : Option Entry × Option Nat)
    (line : List Char) : Option Entry × Option Nat :=
  fes.foldl (entryStep line) st

/-- `find_entry` (merge.rs lines 195-246). -/
def find_entry (m : Manifest) (filePath : String)
    (ctx : Option (List (List Char))) : Option Entry :=
  match fileNameOfPath filePath with
  | none => none
  | some fname =>
    let fes := m.entries.filter (fun e =>
      e.anchor.file == filePath ||
      fileNameOfPath e.anchor.file == some fname)
    if fes.isEmpty then none
    else
      match ctx with
      | some lines =>
        match (lines.reverse.foldl (scanStep fes) (none, none)).1 with
        | some e => some e
        | none => fes.head?
      | none => fes.head?

/-- Indexed `"||| label[i]: value"` lines emitted by the
`for (i, x) in xs.iter().enumerate()` loops of `format_enriched_marker`. -/
def idxLines (label : String) (xs : List String) : String :=
  String.join (xs.enum.map
    (fun p => "||| " ++ label ++ "[" ++ toString p.1 ++ "]: " ++ p.2 ++ "\n"))

/-- `format_enriched_marker` (merge.rs lines 109-193). -/
def format_enriched_marker (side : String) (description : String)
    (m : Manifest) (filePath : String) (ctx : Option (List (List Char))) :
    String :=
  let header := "||| Gip CONTEXT (" ++ side ++ " - " ++ description ++ ")\n"
    ++ "||| Commit: " ++ m.commit ++ "\n"
  match find_entry m filePath ctx with
  | some e =>
    header
    ++ (if e.behaviorClass.isEmpty then "" else
        "||| behaviorClass: " ++ String.intercalate ", " e.behaviorClass
          ++ "\n")
    ++ (if e.rationale.isEmpty then "" else
        "||| rationale: " ++ e.rationale ++ "\n")
    ++ (match e.compatibility with
        | some compat =>
          "||| breaking: " ++ (if compat.breaking then "true" else "false")
            ++ "\n"
          ++ (match compat.migrations with
              | some migs => idxLines "migrations" migs
              | none => "")
        | none => "")
    ++ (match e.contract.inputs with
        | some ins => idxLines "inputs" ins
        | none => "")
    ++ (match e.contract.outputs with
        | some o => "||| outputs: " ++ o ++ "\n"
        | none => "")
    ++ (if e.contract.preconditions.isEmpty then "" else
        idxLines "preconditions" e.contract.preconditions)
    ++ (if e.contract.postconditions.isEmpty then "" else
        idxLines "postconditions" e.contract.postconditions)
    ++ (if e.contract.errorModel.isEmpty then "" else
        idxLines "errorModel" e.contract.errorModel)
    ++ (if e.sideEffects.isEmpty then "" else
        idxLines "sideEffects" e.sideEffects)
    ++ "||| symbol: " ++ e.anchor.symbol ++ "\n"
  | none =>
    header ++
    (match m.globalIntent with
     | some gi =>
       "||| behaviorClass: " ++ String.intercalate ", " gi.behaviorClass
         ++ "\n"
       ++ "||| rationale: " ++ gi.rationale ++ "\n"
     | none => "")

/-- The `lines[context_start..current_line_idx]` slice with
`context_start = if i > w { i - w } else { 0 }` (merge.rs lines 72-73 with
w = 50 and lines 88-89 with w = 100). -/
def ctxWindow (lines : List (List Char)) (i w : Nat) : List (List Char) :=
  let start := if i > w then i - w else 0
  (lines.drop start).take (i - start)

/-- One iteration of the rewrite loop in `enrich_conflict_markers`
(merge.rs lines 64-103): the output chunk contributed by line `i`. -/
def enrichChunk (ours theirs : Option Manifest) (filePath : String)
    (lines : List (List Char)) (i : Nat) : List Char :=
  let line := lines.getD i []
  if CONFLICT_START.isPrefixOf line then
    line ++ ['\n'] ++
      (match ours with
       | some m =>
         (format_enriched_marker "HEAD" "Your changes" m filePath
           (some (ctxWindow lines i 50))).toList
       | none => [])
  else if CONFLICT_MIDDLE.isPrefixOf line then
    line ++ ['\n']
  else if CONFLICT_END.isPrefixOf line then
    (match theirs with
     | some m =>
       (format_enriched_marker (String.mk (trimChars (stripEndMarker line)))
         "Their changes" m filePath (some (ctxWindow lines i 100))).toList
     | none => []) ++ line ++ ['\n']
  else line ++ ['\n']

/-- The `while current_line_idx < lines.len()` loop of
`enrich_conflict_markers`, with the remaining iteration count as
structural fuel (`fuel = lines.length - i` throughout, so the loop ends
exactly when `i` reaches the length). -/
def enrichLoop (ours theirs : Option Manifest) (filePath : String)
    (lines : List (List Char)) : Nat → Nat → List Char
  | _, 0 => []
  | i, fuel + 1 =>
    enrichChunk ours theirs filePath lines i
      ++ enrichLoop ours theirs filePath lines (i + 1) fuel

/-- The full rewrite pass over the lines of a conflicted file. -/
def enrichBody (ours theirs : Option Manifest) (filePath : String)
    (lines : List (List Char)) : List Char :=
  enrichLoop ours theirs filePath lines 0 lines.length

/-- `enrich_conflict_markers` (merge.rs lines 40-107) on the content of an
existing file, given the two optional loaded manifests: `none` models the
`Ok(false)` early returns (nothing written, file reported not modified),
`some out` models writing `out` and returning `Ok(true)`. -/
def enrich_conflict_markers (filePath : String) (ours theirs : Option Manifest)
    (content : List Char) : Option (List Char) :=
  if containsSub CONFLICT_START content then
    if ours.isNone && theirs.isNone then none
    else some (enrichBody ours theirs filePath (rustLines content))
  else none

/-- `enrich_all_conflicts` (merge.rs lines 18-29), abstracting each file's
`enrich_conflict_markers(...)` outcome as an `Except` value: the `?`
operator propagates the first error, otherwise `Ok(true)` outcomes are
counted. -/
def enrich_all_conflicts : List (Except String Bool) → Nat → Except String Nat
  | [], acc => .ok acc
  | .error e :: _, _ => .error e
  | .ok b :: rs, acc =>
    enrich_all_conflicts rs (if b then acc + 1 else acc)

/-- Number of `Ok(true)` outcomes in a list of per-file results. -/
def countEnriched : List (Except String Bool) → Nat
  | [] => 0
  | .ok true :: rs => countEnriched rs + 1
  | _ :: rs => countEnriched rs

/-! ## Claim theorems on the orchestrator (C9) and the untouched-file
guards (C1) -/

/-- Minimal manifest used in the rewriter counterexamples: no entries, no
global intent. -/
def m0 : Manifest :=
  { schemaVersion := "2.0", commit := "c0", globalIntent := none,
    entries := [] }

/-- C9 counterexample inputs: the second file's enrichment fails with an
I/O error, the third would succeed. -/
def c9Results : List (Except String Bool) := [.ok true, .error "io", .ok true]

/-- C9 is false as stated: with per-file outcomes `[Ok(true), Err(io),
Ok(true)]` the orchestrator loop propagates the error through `?` instead
of continuing; it reports neither the full count 2 nor the partial count 1
— it returns the error. -/
theorem enrich_all_counterexample :
    enrich_all_conflicts c9Results 0 = .error "io" ∧
    enrich_all_conflicts c9Results 0 ≠ .ok 2 ∧
    enrich_all_conflicts c9Results 0 ≠ .ok 1 := by
  refine ⟨rfl, ?_, ?_⟩ <;> simp [c9Results, enrich_all_conflicts]

/-- C9 amended: an I/O error on one file aborts the whole enrichment pass:
the orchestrator returns the first error and never processes the remaining
files; only when every file's enrichment succeeds does it report the count
of files that were enriched. -/
theorem enrich_all_amended :
    (∀ (pre post : List (Except String Bool)) (acc : Nat) (e : String),
      (∀ r ∈ pre, r.isOk = true) →
      enrich_all_conflicts (pre ++ .error e :: post) acc = .error e)
    ∧ (∀ (rs : List (Except String Bool)) (acc : Nat),
      (∀ r ∈ rs, r.isOk = true) →
      enrich_all_conflicts rs acc = .ok (acc + countEnriched rs)) := by
  constructor
  · intro pre
    induction pre with
    | nil => intro post acc e _; rfl
    | cons r pre ih =>
      intro post acc e h
      have hr := h r (List.mem_cons_self r pre)
      cases r with
      | error e' => simp [Except.isOk, Except.toBool] at hr
      | ok b =>
        simp only [List.cons_append, enrich_all_conflicts]
        exact ih post _ e (fun x hx => h x (List.mem_cons_of_mem _ hx))
  · intro rs
    induction rs with
    | nil => intro acc _; simp [enrich_all_conflicts, countEnriched]
    | cons r rs ih =>
      intro acc h
      have hr := h r (List.mem_cons_self r rs)
      cases r with
      | error e' => simp [Except.isOk, Except.toBool] at hr
      | ok b =>
        have h2 := ih (if b then acc + 1 else acc)
          (fun x hx => h x (List.mem_cons_of_mem _ hx))
        cases b
        · simpa [enrich_all_conflicts, countEnriched] using h2
        · simp only [enrich_all_conflicts, countEnriched, if_true] at h2 ⊢
          rw [h2]
          exact congrArg Except.ok (by omega)

theorem enrich_all_amended_witness :
    enrich_all_conflicts ([.ok true] ++ .error "io2" :: [.ok true]) 0
      = .error "io2" ∧
    enrich_all_conflicts [.ok true, .ok false] 0 = .ok 1 := by
  constructor
  · exact enrich_all_amended.1 [.ok true] [.ok true] 0 "io2" (by decide)
  · have h := enrich_all_amended.2 [.ok true, .ok false] 0 (by decide)
    simpa [countEnriched] using h

/-- C1 is false as stated: the guard in `enrich_conflict_markers` is a
substring check for the ours token, not a line check. The file
`"a<<<<<<<"` has no line beginning with the ours delimiter, yet with an
ours manifest loaded it is rewritten (a trailing newline is appended, so
the written content is not byte-identical) and reported as modified. -/
theorem enrich_untouched_counterexample :
    (rustLines "a<<<<<<<".toList).all
        (fun l => !(CONFLICT_START.isPrefixOf l)) = true ∧
    enrich_conflict_markers "f.rs" (some m0) none "a<<<<<<<".toList
      = some "a<<<<<<<\n".toList ∧
    "a<<<<<<<\n".toList ≠ "a<<<<<<<".toList := by
  refine ⟨by decide, by decide, by decide⟩

/-- C1 amended: the Marker Rewriter leaves the file untouched (nothing is
written) and reports it as not modified whenever the content contains no
occurrence of the ours-delimiter token as a substring (not merely no
ours-delimiter line), and likewise whenever neither manifest loaded. -/
theorem enrich_untouched_amended (filePath : String)
    (ours theirs : Option Manifest) (content : List Char)
    (h : containsSub CONFLICT_START content = false ∨
      (ours = none ∧ theirs = none)) :
    enrich_conflict_markers filePath ours theirs content = none := by
  rcases h with h | ⟨h1, h2⟩
  · simp [enrich_conflict_markers, h]
  · subst h1; subst h2
    by_cases hc : containsSub CONFLICT_START content <;>
      simp [enrich_conflict_markers, hc, Option.isNone]

theorem enrich_untouched_amended_witness :
    enrich_conflict_markers "f.rs" none none "x\n<<<<<<< HEAD\n".toList
      = none ∧
    enrich_conflict_markers "f.rs" (some m0) none "plain\n".toList
      = none :=
  ⟨enrich_untouched_amended "f.rs" none none _ (Or.inr ⟨rfl, rfl⟩),
    enrich_untouched_amended "f.rs" (some m0) none _ (Or.inl (by decide))⟩

/-! ## Claim C2: state machine vs. the actual stateless rewriter -/

/-- The scanning states named by the spec (§4.5). -/
inductive RWState where
  | outside
  | insideOurs
  | insideTheirs
deriving DecidableEq, Repr

/-- Modelled from the spec: the per-line behavior of the Marker Rewriter as
§4.5 describes it — a state machine in which the ours block is emitted only
on an ours-delimiter line seen in `OUTSIDE`, the separator only transitions
in `INSIDE_OURS`, the theirs block is emitted only on an end-delimiter line
seen in `INSIDE_THEIRS`, and delimiter lines in any other state are emitted
unchanged with no block. Block derivation and context windows are shared
with the code embedding. Returns the emitted chunk and the next state. -/
def smChunkState (ours theirs : Option Manifest) (filePath : String)
    (lines : List (List Char)) (i : Nat) (st : RWState) :
    List Char × RWState :=
  let line := lines.getD i []
  match st with
  | .outside =>
    if CONFLICT_START.isPrefixOf line then
      (line ++ ['\n'] ++
        (match ours with
         | some m =>
           (format_enriched_marker "HEAD" "Your changes" m filePath
             (some (ctxWindow lines i 50))).toList
         | none => []), .insideOurs)
    else (line ++ ['\n'], .outside)
  | .insideOurs =>
    if CONFLICT_MIDDLE.isPrefixOf line then (line ++ ['\n'], .insideTheirs)
    else (line ++ ['\n'], .insideOurs)
  | .insideTheirs =>
    if CONFLICT_END.isPrefixOf line then
      ((match theirs with
        | some m =>
          (format_enriched_marker
            (String.mk (trimChars (stripEndMarker line)))
            "Their changes" m filePath
            (some (ctxWindow lines i 100))).toList
        | none => []) ++ line ++ ['\n'], .outside)
    else (line ++ ['\n'], .insideTheirs)

/-- Modelled from the spec: run the §4.5 state machine over all lines
starting in `OUTSIDE`. -/
def smLoop (ours theirs : Option Manifest) (filePath : String)
    (lines : List (List Char)) : Nat → Nat → RWState → List Char
  | _, 0, _ => []
  | i, fuel + 1, st =>
    (smChunkState ours theirs filePath lines i st).1
      ++ smLoop ours theirs filePath lines (i + 1) fuel
        (smChunkState ours theirs filePath lines i st).2

def smRewrite (ours theirs : Option Manifest) (filePath : String)
    (lines : List (List Char)) : List Char :=
  smLoop ours theirs filePath lines 0 lines.length .outside

/-- C2 counterexample content: an end-delimiter line that is reached in
state OUTSIDE (no preceding ours delimiter). -/
def c2Content : List Char :=
  ">>>>>>> dev\n<<<<<<< HEAD\n=======\n>>>>>>> dev\n".toList

/-- C2 is false as stated: the code's rewrite of `c2Content` (with only a
theirs manifest loaded) differs from the spec's state-machine rewrite —
the code emits a theirs enrichment block before the first `>>>>>>>` line
even though no conflict is open there, while the state machine emits that
line unchanged. -/
theorem enrich_state_machine_counterexample :
    enrichBody none (some m0) "src/main.rs" (rustLines c2Content)
      ≠ smRewrite none (some m0) "src/main.rs" (rustLines c2Content) := by
  decide

/-- C2 amended: the rewriter is stateless, not a state machine: its output
is the independent concatenation of per-line chunks — after every line
beginning with the ours token the ours block (if that manifest loaded,
with the 50-line window) is emitted, before every line beginning with the
end token the theirs block (if that manifest loaded, with the 100-line
window) is emitted, and every other line (including separator lines) is
emitted unchanged — regardless of any preceding delimiter lines. -/
theorem enrich_stateless (ours theirs : Option Manifest) (filePath : String)
    (lines : List (List Char)) :
    enrichBody ours theirs filePath lines
      = ((List.range lines.length).map
          (enrichChunk ours theirs filePath lines)).flatten := by
  have key : ∀ (fuel i : Nat),
      enrichLoop ours theirs filePath lines i fuel
        = ((List.range' i fuel).map
            (enrichChunk ours theirs filePath lines)).flatten := by
    intro fuel
    induction fuel with
    | zero => intro i; rfl
    | succ f ih =>
      intro i
      simp only [enrichLoop, List.range'_succ, List.map_cons, List.flatten_cons,
        ih (i + 1)]
  rw [enrichBody, key, List.range_eq_range']

/-! ## Claim C10: LF termination of rewritten output -/

theorem toList_append (a b : String) : (a ++ b).toList = a.toList ++ b.toList :=
  rfl

theorem strEndsNl (s : String) : (s ++ "\n").toList.getLast? = some '\n' := by
  have h : ("\n" : String).toList ≠ [] := by decide
  rw [toList_append, List.getLast?_append_of_ne_nil _ h]
  decide

theorem ne_nil_of_getLast?_eq_some {α : Type} {l : List α} {c : α}
    (h : l.getLast? = some c) : l ≠ [] := by
  intro hn
  subst hn
  simp at h

theorem getLast?_append_right {α : Type} (xs ys : List α) (c : α)
    (h : ys.getLast? = some c) : (xs ++ ys).getLast? = some c := by
  rw [List.getLast?_append_of_ne_nil _ (ne_nil_of_getLast?_eq_some h)]
  exact h

theorem fem_ends_nl (side description : String) (m : Manifest)
    (filePath : String) (ctx : Option (List (List Char))) :
    (format_enriched_marker side description m filePath ctx).toList.getLast?
      = some '\n' := by
  unfold format_enriched_marker
  cases hfe : find_entry m filePath ctx with
  | some e =>
    simp only [hfe]
    exact strEndsNl _
  | none =>
    simp only [hfe]
    cases hgi : m.globalIntent with
    | some gi =>
      have h : ((("||| behaviorClass: "
          ++ String.intercalate ", " gi.behaviorClass ++ "\n"
          ++ "||| rationale: " ++ gi.rationale ++ "\n") : String)).toList
            ≠ [] := by
        apply ne_nil_of_getLast?_eq_some (c := '\n')
        exact strEndsNl _
      rw [toList_append, List.getLast?_append_of_ne_nil _ h]
      exact strEndsNl _
    | none =>
      rw [toList_append]
      simp only [show ("" : String).toList = [] from rfl, List.append_nil]
      exact strEndsNl _

theorem enrichChunk_ends_nl (ours theirs : Option Manifest)
    (filePath : String) (lines : List (List Char)) (i : Nat) :
    (enrichChunk ours theirs filePath lines i).getLast? = some '\n' := by
  by_cases h1 : CONFLICT_START.isPrefixOf (lines.getD i []) = true
  · cases ours with
    | some m =>
      simp only [enrichChunk, h1, if_true]
      exact getLast?_append_right _ _ _ (fem_ends_nl _ _ _ _ _)
    | none =>
      simp only [enrichChunk, h1, if_true, List.append_nil]
      exact List.getLast?_concat _
  · simp only [Bool.not_eq_true] at h1
    by_cases h2 : CONFLICT_MIDDLE.isPrefixOf (lines.getD i []) = true
    · simp only [enrichChunk, h1, Bool.false_eq_true, if_false, h2, if_true]
      exact List.getLast?_concat _
    · simp only [Bool.not_eq_true] at h2
      by_cases h3 : CONFLICT_END.isPrefixOf (lines.getD i []) = true
      · cases theirs with
        | some m =>
          simp only [enrichChunk, h1, Bool.false_eq_true, if_false, h2, h3,
            if_true]
          exact List.getLast?_concat _
        | none =>
          simp only [enrichChunk, h1, Bool.false_eq_true, if_false, h2, h3,
            if_true]
          exact List.getLast?_concat _
      · simp only [Bool.not_eq_true] at h3
        simp only [enrichChunk, h1, h2, h3, Bool.false_eq_true, if_false]
        exact List.getLast?_concat _

theorem enrichLoop_ends_nl (ours theirs : Option Manifest)
    (filePath : String) (lines : List (List Char)) :
    ∀ (fuel i : Nat), 0 < fuel →
      (enrichLoop ours theirs filePath lines i fuel).getLast? = some '\n' := by
  intro fuel
  induction fuel with
  | zero => intro i h; omega
  | succ f ih =>
    intro i _
    by_cases hf : 0 < f
    · have ht := ih (i + 1) hf
      simp only [enrichLoop]
      exact getLast?_append_right _ _ _ ht
    · have hf0 : f = 0 := by omega
      subst hf0
      simp only [enrichLoop, List.append_nil]
      exact enrichChunk_ends_nl ours theirs filePath lines i

theorem splitOnChar_ne_nil (c : Char) (s : List Char) :
    splitOnChar c s ≠ [] := by
  cases s with
  | nil => simp [splitOnChar]
  | cons x xs =>
    simp only [splitOnChar]
    cases h : splitOnChar c xs with
    | nil => simp
    | cons r rs => by_cases hx : x = c <;> simp [hx]

theorem splitOnChar_eq_single (c : Char) (s : List Char)
    (h : splitOnChar c s = [[]]) : s = [] := by
  cases s with
  | nil => rfl
  | cons x xs =>
    exfalso
    simp only [splitOnChar] at h
    cases h2 : splitOnChar c xs with
    | nil => exact splitOnChar_ne_nil c xs h2
    | cons r rs =>
      rw [h2] at h
      by_cases hx : x = c <;> simp [hx] at h

theorem rustLines_ne_nil (s : List Char) (hs : s ≠ []) : rustLines s ≠ [] := by
  have h1 := splitOnChar_ne_nil '\n' s
  have h2 : splitOnChar '\n' s ≠ [[]] :=
    fun h => hs (splitOnChar_eq_single _ _ h)
  cases hp : splitOnChar '\n' s with
  | nil => exact absurd hp h1
  | cons p ps =>
    cases ps with
    | nil =>
      cases p with
      | nil => exact absurd hp h2
      | cons c cs => simp [rustLines, hp]
    | cons q qs =>
      simp only [rustLines, hp]
      cases hl : (p :: q :: qs).getLast? with
      | none => simp at hl
      | some last =>
        cases last with
        | nil =>
          intro hcontra
          apply congrArg List.length at hcontra
          simp [List.length_dropLast] at hcontra
        | cons c cs => simp

/-- C10 sample input: first line CRLF-terminated, last line with no final
newline. -/
def c10Content : List Char :=
  "a\r\n<<<<<<< HEAD\nb\n=======\nc\n>>>>>>> dev".toList

/-- C10 expected rewritten output: all-LF, final newline added. -/
def c10Expected : List Char :=
  ("a\n<<<<<<< HEAD\n||| Gip CONTEXT (HEAD - Your changes)\n"
    ++ "||| Commit: c0\nb\n=======\nc\n>>>>>>> dev\n").toList

/-- C10: whenever the Marker Rewriter does rewrite a file, the written
output is a concatenation of LF-terminated lines: it always ends with a
single LF even if the input did not end with a newline (first conjunct,
for every input), and CRLF line endings are rewritten to bare LF (second
conjunct: the concrete CRLF-bearing, newline-less `c10Content` is
rewritten to the all-LF `c10Expected` with a final newline added). -/
theorem enrich_output_newlines :
    (∀ (filePath : String) (ours theirs : Option Manifest)
        (content out : List Char),
      enrich_conflict_markers filePath ours theirs content = some out →
      out.getLast? = some '\n')
    ∧ enrich_conflict_markers "src/main.rs" (some m0) none c10Content
        = some c10Expected := by
  constructor
  · intro filePath ours theirs content out h
    by_cases hc : containsSub CONFLICT_START content = true
    · have hcontent : content ≠ [] := by
        intro hn
        subst hn
        exact absurd hc (by decide)
      by_cases hm : (ours.isNone && theirs.isNone) = true
      · simp [enrich_conflict_markers, hc, hm] at h
      · simp only [enrich_conflict_markers, hc, if_true, hm, if_false,
          Bool.false_eq_true, Option.some.injEq] at h
        subst h
        have hlen : 0 < (rustLines content).length :=
          List.length_pos.mpr (rustLines_ne_nil content hcontent)
        exact enrichLoop_ends_nl ours theirs filePath (rustLines content)
          (rustLines content).length 0 hlen
    · simp only [Bool.not_eq_true] at hc
      simp [enrich_conflict_markers, hc] at h
  · decide

theorem enrich_output_newlines_witness :
    c10Expected.getLast? = some '\n' :=
  enrich_output_newlines.1 "src/main.rs" (some m0) none c10Content
    c10Expected enrich_output_newlines.2

/-! ## Claim C8: the Entry Resolver

Spec-side formulation of the claim's algorithm: collect, in backward scan
order, every (indent, candidate) pair for which the candidate's symbol
occurs on the line; the result is the pair at the first occurrence of the
minimum indent, falling back to the first filtered candidate when there
are no matches, and to no entry when the filtered set is empty. -/

/-- Modelled from the claim: the candidate filter as C8 words it — anchor
file equal to the target path exactly, or equal by base name (base-name
matching requires both base names to exist). -/
def claimFilter (filePath : String) (e : Entry) : Bool :=
  e.anchor.file == filePath ||
    ((fileNameOfPath e.anchor.file).isSome &&
      fileNameOfPath e.anchor.file == fileNameOfPath filePath)

/-- The (indent, entry) pairs contributed by one scanned line, in
candidate order. -/
def lineMatches (fes : List Entry) (line : List Char) : List (Nat × Entry) :=
  (fes.filter (fun e => symbolMatches e line)).map
    (fun e => (lineIndent line, e))

/-- All (indent, entry) pairs of the backward scan, in scan order. -/
def matchesOf (fes : List Entry) (linesRev : List (List Char)) :
    List (Nat × Entry) :=
  linesRev.flatMap (lineMatches fes)

/-- Minimum of a list of naturals, `none` on the empty list. -/
def minOf : List Nat → Option Nat
  | [] => none
  | x :: xs =>
    match minOf xs with
    | none => some x
    | some m => some (min x m)

/-- Modelled from the claim: the selected candidate is the entry of the
first match (in backward scan order) whose indent equals the minimum
leading-whitespace count over all matches. -/
def claimBest (ms : List (Nat × Entry)) : Option Entry :=
  match minOf (ms.map Prod.fst) with
  | none => none
  | some mi => (ms.find? (fun p => p.1 == mi)).map Prod.snd

/-- Modelled from the claim: C8's description of the resolver. -/
def findEntryClaim (m : Manifest) (filePath : String)
    (ctx : Option (List (List Char))) : Option Entry :=
  let fes := m.entries.filter (claimFilter filePath)
  if fes.isEmpty then none
  else
    match ctx with
    | some lines =>
      match claimBest (matchesOf fes lines.reverse) with
      | some e => some e
      | none => fes.head?
    | none => fes.head?

/-- The single-match step the scan loop performs on each (indent, entry)
pair: strict indentation improvement replaces the best entry. -/
def mStep (st : Option Entry × Option Nat) (p : Nat × Entry) :
    Option Entry × Option Nat :=
  if (match st.2 with
      | none => true
      | some m => decide (p.1 < m)) then
    (some p.2, some p.1)
  else st

theorem entryStep_eq_mStep (line : List Char) (st : Option Entry × Option Nat)
    (e : Entry) (h : symbolMatches e line = true) :
    entryStep line st e = mStep st (lineIndent line, e) := by
  simp [entryStep, mStep, h]

theorem entryStep_skip (line : List Char) (st : Option Entry × Option Nat)
    (e : Entry) (h : symbolMatches e line = false) :
    entryStep line st e = st := by
  simp [entryStep, h]

theorem scanStep_eq_foldl (line : List Char) :
    ∀ (fes : List Entry) (st : Option Entry × Option Nat),
      scanStep fes st line = (lineMatches fes line).foldl mStep st := by
  intro fes
  induction fes with
  | nil => intro st; rfl
  | cons e fes ih =>
    intro st
    by_cases hm : symbolMatches e line = true
    · simp only [scanStep, List.foldl_cons, entryStep_eq_mStep line st e hm,
        lineMatches, List.filter_cons, hm, if_true, List.map_cons]
      exact ih (mStep st (lineIndent line, e))
    · simp only [Bool.not_eq_true] at hm
      simp only [scanStep, List.foldl_cons, entryStep_skip line st e hm,
        lineMatches, List.filter_cons, hm, Bool.false_eq_true, if_false]
      exact ih st

theorem foldl_scan_eq (fes : List Entry) :
    ∀ (ls : List (List Char)) (st : Option Entry × Option Nat),
      ls.foldl (scanStep fes) st = (matchesOf fes ls).foldl mStep st := by
  intro ls
  induction ls with
  | nil => intro st; rfl
  | cons l ls ih =>
    intro st
    simp only [List.foldl_cons, matchesOf, List.flatMap_cons,
      List.foldl_append]
    rw [scanStep_eq_foldl]
    exact ih _

theorem minOf_eq_none (l : List Nat) : minOf l = none ↔ l = [] := by
  cases l with
  | nil => simp [minOf]
  | cons x xs =>
    simp only [minOf]
    cases minOf xs <;> simp

theorem minOf_le (l : List Nat) (m : Nat) (h : minOf l = some m) :
    ∀ x ∈ l, m ≤ x := by
  induction l generalizing m with
  | nil => simp [minOf] at h
  | cons a t ih =>
    simp only [minOf] at h
    cases hm : minOf t with
    | none =>
      rw [hm] at h
      have ha : m = a := by simpa using h.symm
      subst ha
      have ht : t = [] := (minOf_eq_none t).mp hm
      subst ht
      simp
    | some m' =>
      rw [hm] at h
      have ha : m = min a m' := by simpa using h.symm
      subst ha
      intro x hx
      rcases List.mem_cons.mp hx with hx | hx
      · subst hx; exact min_le_left _ _
      · exact le_trans (min_le_right _ _) (ih m' hm x hx)

theorem minOf_attained (l : List Nat) (m : Nat) (h : minOf l = some m) :
    m ∈ l := by
  induction l generalizing m with
  | nil => simp [minOf] at h
  | cons a t ih =>
    simp only [minOf] at h
    cases hm : minOf t with
    | none =>
      rw [hm] at h
      have ha : m = a := by simpa using h.symm
      subst ha
      simp
    | some m' =>
      rw [hm] at h
      have ha : m = min a m' := by simpa using h.symm
      subst ha
      by_cases hle : a ≤ m'
      · rw [min_eq_left hle]; simp
      · rw [min_eq_right (le_of_not_le hle)]
        exact List.mem_cons_of_mem a (ih m' hm)

theorem minOf_concat (l : List Nat) (x : Nat) :
    minOf (l ++ [x]) = some (match minOf l with
      | none => x
      | some m => min m x) := by
  induction l with
  | nil => rfl
  | cons a t ih =>
    cases hm : minOf t with
    | none =>
      have ht : t = [] := (minOf_eq_none t).mp hm
      subst ht
      rfl
    | some m =>
      simp only [List.cons_append, minOf, List.append_eq, hm, ih]
      exact congrArg some (min_assoc a m x).symm


theorem find?_append_eq {α : Type} (l₁ l₂ : List α) (p : α → Bool) :
    (l₁ ++ l₂).find? p
      = (match l₁.find? p with
        | some a => some a
        | none => l₂.find? p) := by
  induction l₁ with
  | nil => simp
  | cons a t ih =>
    by_cases hp : p a = true <;>
      simp [List.find?_cons, hp, ih]

theorem foldl_mStep_spec (ms : List (Nat × Entry)) :
    ms.foldl mStep (none, none) = (claimBest ms, minOf (ms.map Prod.fst)) := by
  induction ms using List.reverseRecOn with
  | nil => rfl
  | append_singleton ms p ih =>
    rw [List.foldl_append, ih, List.foldl_cons, List.foldl_nil]
    cases hm : minOf (ms.map Prod.fst) with
    | none =>
      have hmap0 := (minOf_eq_none _).mp hm
      have hms : ms = [] := by
        cases ms with
        | nil => rfl
        | cons a t => simp at hmap0
      subst hms
      simp [mStep, claimBest, minOf, List.find?]
    | some m =>
      have hmap : minOf ((ms ++ [p]).map Prod.fst) = some (min m p.1) := by
        rw [List.map_append]
        simp only [List.map_cons, List.map_nil]
        rw [minOf_concat, hm]
      by_cases hlt : p.1 < m
      · have hstep : mStep (claimBest ms, some m) p = (some p.2, some p.1) := by
          simp [mStep, hlt]
        have hfind : ms.find? (fun q => q.1 == p.1) = none := by
          apply List.find?_eq_none.mpr
          intro q hq
          have hq1 := minOf_le _ _ hm q.1 (List.mem_map_of_mem Prod.fst hq)
          intro hb
          rw [beq_iff_eq] at hb
          omega
        have hcb : claimBest (ms ++ [p]) = some p.2 := by
          simp only [claimBest, hmap, min_eq_right (le_of_lt hlt)]
          rw [find?_append_eq, hfind]
          simp [List.find?]
        rw [hstep, hcb, hmap, min_eq_right (le_of_lt hlt)]
      · have hle : m ≤ p.1 := le_of_not_lt hlt
        have hstep : mStep (claimBest ms, some m) p
            = (claimBest ms, some m) := by
          simp [mStep, hlt]
        have hmem : m ∈ ms.map Prod.fst := minOf_attained _ _ hm
        obtain ⟨q, hq, hq1⟩ := List.mem_map.mp hmem
        have hsome : (ms.find? (fun x => x.1 == m)).isSome := by
          rw [List.find?_isSome]
          exact ⟨q, hq, by simp [hq1]⟩
        obtain ⟨r, hr⟩ := Option.isSome_iff_exists.mp hsome
        have hcb : claimBest (ms ++ [p]) = claimBest ms := by
          simp only [claimBest, hmap, min_eq_left hle, hm]
          rw [find?_append_eq, hr]
        rw [hstep, hcb, hmap, min_eq_left hle]

theorem find_entry_eq_claim (m : Manifest) (filePath : String)
    (ctx : Option (List (List Char)))
    (h : (fileNameOfPath filePath).isSome = true) :
    find_entry m filePath ctx = findEntryClaim m filePath ctx := by
  obtain ⟨fname, hf⟩ := Option.isSome_iff_exists.mp h
  have hfil : (fun (e : Entry) => e.anchor.file == filePath ||
        fileNameOfPath e.anchor.file == some fname)
      = claimFilter filePath := by
    funext e
    simp only [claimFilter, hf]
    cases hg : fileNameOfPath e.anchor.file with
    | none => simp
    | some g => simp
  simp only [find_entry, findEntryClaim, hf, hfil]
  cases ctx with
  | none => rfl
  | some lines =>
    by_cases hemp : (m.entries.filter (claimFilter filePath)).isEmpty
    · simp [hemp]
    · simp only [hemp, Bool.false_eq_true, if_false]
      rw [foldl_scan_eq, foldl_mStep_spec]

/-- C8 counterexample entry: anchored at the path `".."`, which has no
extractable base name. -/
def c8DotEntry : Entry :=
  { anchor := ⟨"..", "s", "H#1"⟩, changeType := "modify", rationale := "r",
    signatureDelta := none, behaviorClass := [],
    contract := ⟨none, none, [], [], []⟩, sideEffects := [],
    compatibility := none, testsTouched := none, perfBudget := none,
    securityNotes := none, featureFlags := none,
    inheritsGlobalIntent := none }

def c8DotManifest : Manifest :=
  { schemaVersion := "2.0", commit := "c8", globalIntent := none,
    entries := [c8DotEntry] }

/-- C8 is false as stated: for the target path `".."` the claim's filter
keeps the exactly matching candidate and, with no matching line in the
window, the claim says the first filtered candidate is returned; but
`find_entry` bails out with no entry as soon as `Path::file_name` has no
value for the target path, before any filtering. -/
theorem find_entry_counterexample :
    findEntryClaim c8DotManifest ".." (some []) = some c8DotEntry ∧
    find_entry c8DotManifest ".." (some []) = none := by
  refine ⟨by decide, by decide⟩

/-- C8 scenario entries (mirroring the candidates of the claim). -/
def c8MainEntry : Entry :=
  { anchor := ⟨"src/main.rs", "main", "1"⟩, changeType := "mod",
    rationale := "main logic", signatureDelta := none, behaviorClass := [],
    contract := ⟨none, none, [], [], []⟩, sideEffects := [],
    compatibility := none, testsTouched := none, perfBudget := none,
    securityNotes := none, featureFlags := none,
    inheritsGlobalIntent := none }

def c8HelperEntry : Entry :=
  { anchor := ⟨"src/main.rs", "helper", "2"⟩, changeType := "mod",
    rationale := "helper logic", signatureDelta := none, behaviorClass := [],
    contract := ⟨none, none, [], [], []⟩, sideEffects := [],
    compatibility := none, testsTouched := none, perfBudget := none,
    securityNotes := none, featureFlags := none,
    inheritsGlobalIntent := none }

def c8Manifest : Manifest :=
  { schemaVersion := "2.0", commit := "abc", globalIntent := none,
    entries := [c8MainEntry, c8HelperEntry] }

def c8CtxHelper : List (List Char) :=
  ["fn helper() \x7b".toList, "    // some code".toList]

def c8CtxMain : List (List Char) :=
  ["fn main() \x7b".toList, "    helper();".toList]

/-- C8 amended: whenever the target path has an extractable base name, the
Entry Resolver behaves exactly as the claim describes (filter by exact
path or base name; pick the candidate of the first backward-scan match at
the minimum leading-whitespace count; fall back to the first filtered
candidate, or to no entry when the filtered set is empty); when the target
path has no base name (e.g. it ends in `".."`), the resolver returns no
entry without filtering. The two indentation scenarios resolve as the
claim states: `"fn helper() {"` (indent 0) resolves to `helper`, and
`"    helper();"` inside `"fn main() {"` resolves to `main`. -/
theorem find_entry_amended :
    (∀ (m : Manifest) (filePath : String)
        (ctx : Option (List (List Char))),
      (fileNameOfPath filePath).isSome = true →
      find_entry m filePath ctx = findEntryClaim m filePath ctx)
    ∧ find_entry c8Manifest "src/main.rs" (some c8CtxHelper)
        = some c8HelperEntry
    ∧ find_entry c8Manifest "src/main.rs" (some c8CtxMain)
        = some c8MainEntry := by
  refine ⟨find_entry_eq_claim, by decide, by decide⟩

theorem find_entry_amended_witness :
    find_entry c8Manifest "src/main.rs" none
      = findEntryClaim c8Manifest "src/main.rs" none :=
  find_entry_amended.1 c8Manifest "src/main.rs" none (by decide)

end Gip
